import Mathlib

/-!
Verification of the tokenizer in `src/parser/lexer.rs`.

The Rust source declares a `logos`-derived lexer: an enum `Token` whose variants
carry `#[token(...)]` / `#[regex(...)]` patterns, a `LexingError` enum, an auxiliary
`logos`-derived enum `MultiLineComment` used by the callback `comment` to consume
nested multi-line comments with an explicit depth counter, and a `Display`
implementation giving each token a canonical rendering.

The embedding below models the input as a `List Char` (the lexer walks the UTF-8
text scalar by scalar; all offsets here are counted in scalars). The `logos`
pattern table is modelled as an explicit ordered list of rules, each rule a pair
of a longest-match function for its pattern and its `logos` disambiguation
priority (2 per byte for a `#[token]` literal, 2 for a mandatory character class
in a `#[regex]` as `logos` computes it). Dispatch is `logos` maximal munch: the
rule with the longest match wins, and at equal length the higher priority wins
(this is exactly how `Let`/`Dup` beat `Name` on the texts "let"/"dup").
When no rule matches, the lexer yields `Err(LexingError::default())`
(= `InvalidCharacter`) and advances past the offending character.
-/

/-- The error enum of the lexer; `InvalidCharacter` is `#[default]`. -/
inductive LexingError where
  | UnclosedComment
  | InvalidCharacter
  deriving DecidableEq, Repr

/-- The token enum, with the same variants as the Rust `Token` enum.
`Name` carries the matched identifier text and `Number` the parsed value.
`SingleLineComment`, `MultiLineComment` and `Whitespace` exist as variants but
their patterns are `logos::skip` (resp. a skipping callback), and `Error` has no
pattern at all, so the lexer itself never emits them. -/
inductive Token where
  | Name (s : String)
  | Lambda
  | Let
  | Dup
  | Equals
  | Number (n : Nat)
  | Add
  | Sub
  | Mul
  | Div
  | Mod
  | And
  | Or
  | Xor
  | Shl
  | Shr
  | Ltn
  | Lte
  | Gtn
  | Gte
  | EqualsEquals
  | NotEquals
  | Semicolon
  | LParen
  | RParen
  | NewLine
  | SingleLineComment
  | MultiLineComment
  | Whitespace
  | Error (e : LexingError)
  deriving DecidableEq, Repr

/-- One item of the produced stream: `Lexer::next` yields `Result<Token, LexingError>`. -/
inductive LexResult where
  | ok (t : Token)
  | err (e : LexingError)
  deriving DecidableEq, Repr

/-- Modelled from the spec: `crate::ast::Number` (the file defining it is not under
`src/`) is "a semantic wrapper over an unsigned integer parsed from one or more
consecutive ASCII digits; construction fails (producing an error for that lexeme)
rather than silently truncating or wrapping on overflow". The spec does not fix
the width of the unsigned integer; we model the representable range as
`[0, numberMax]` with the 64-bit machine maximum. -/
def numberMax : Nat := 2 ^ 64 - 1

/-- Numeric value of a run of ASCII digits (what `str::parse` computes when in range). -/
def digitsVal (ds : List Char) : Nat :=
  ds.foldl (fun acc c => acc * 10 + (c.toNat - 48)) 0

/-- Modelled from the spec: parsing a digit run into `Number`
(`lex.slice().parse().map(Number).ok()`); fails iff the value overflows. -/
def parseNumber (ds : List Char) : Option Nat :=
  if digitsVal ds ≤ numberMax then some (digitsVal ds) else none

/-- Character class of the regex `[0-9]`. -/
def isDigit (c : Char) : Bool := decide ('0' ≤ c ∧ c ≤ '9')

/-- Character class of the regex `[_a-zA-Z]` (first character of `Name`). -/
def identStart (c : Char) : Bool :=
  decide (c = '_' ∨ ('a' ≤ c ∧ c ≤ 'z') ∨ ('A' ≤ c ∧ c ≤ 'Z'))

/-- Character class of the regex `[_a-zA-Z0-9]` (continuation of `Name`). -/
def identCont (c : Char) : Bool := identStart c || isDigit c

/-- Character class of the regex `[ \t\f\r]` (skipped horizontal whitespace). -/
def isWs (c : Char) : Bool := c == ' ' || c == '\t' || c == '\x0c' || c == '\r'

/-- Length of the longest prefix whose characters all satisfy `p`. -/
def takeWhileLen (p : Char → Bool) : List Char → Nat
  | [] => 0
  | c :: cs => if p c then takeWhileLen p cs + 1 else 0

/-- Longest match of the regex `[_a-zA-Z][_a-zA-Z0-9]*` at the head of the input. -/
def matchName : List Char → Option Nat
  | [] => none
  | c :: cs => if identStart c then some (takeWhileLen identCont cs + 1) else none

/-- Longest match of the regex `@|λ` at the head of the input. -/
def matchLambda : List Char → Option Nat
  | [] => none
  | c :: _ => if c = '@' ∨ c = 'λ' then some 1 else none

/-- Longest match of the regex `[0-9]+` at the head of the input. -/
def matchNumber : List Char → Option Nat
  | [] => none
  | c :: cs => if isDigit c then some (takeWhileLen isDigit cs + 1) else none

/-- Test whether `pat` is a prefix of the input. -/
def litMatches : List Char → List Char → Bool
  | [], _ => true
  | _ :: _, [] => false
  | p :: ps, c :: cs => p == c && litMatches ps cs

/-- Match of a `#[token("...")]` literal at the head of the input. -/
def matchLit (pat : List Char) (input : List Char) : Option Nat :=
  if litMatches pat input then some pat.length else none

/-- Longest match of the regex `//.*` at the head of the input
(`.` does not match a newline). -/
def matchLineComment : List Char → Option Nat
  | '/' :: '/' :: rest => some (takeWhileLen (fun c => c != '\n') rest + 2)
  | _ => none

/-- Longest match of the regex `[ \t\f\r]+` at the head of the input. -/
def matchWhitespace : List Char → Option Nat
  | [] => none
  | c :: cs => if isWs c then some (takeWhileLen isWs cs + 1) else none

/-- Longest match of the regex `(?s).` (any single character, newline included). -/
def matchAnyChar : List Char → Option Nat
  | [] => none
  | _ :: _ => some 1

/-- The callback of the `Name` rule: `lex.slice().parse().ok()`, where parsing a
`str` into a `String` never fails, so the token always carries the matched text. -/
def nameEmit (s : List Char) : LexResult := .ok (.Name (String.mk s))

/-- The callback of the `Number` rule: `lex.slice().parse().map(Number).ok()`;
when the parse fails (overflow) the callback returns `None`, which `logos` turns
into `Err(LexingError::default())` = `InvalidCharacter` for this lexeme. -/
def numberEmit (s : List Char) : LexResult :=
  match parseNumber s with
  | some v => .ok (.Number v)
  | none => .err .InvalidCharacter

/-- What a matched rule of the primary lexer does: produce a stream item from the
matched slice, skip (`logos::skip`), or run the `comment` callback. -/
inductive RuleAction where
  | emit (f : List Char → LexResult)
  | skip
  | comment

/-- One pattern of a `logos` lexer: its longest-match function, its `logos`
priority (used to break ties between matches of equal length), and its output. -/
structure Rule (α : Type) where
  matchLen : List Char → Option Nat
  rank : Nat
  out : α

/-- One step of the maximal-munch fold: keep the better of the best candidate so
far and rule `r` (a longer match wins, and at equal length a higher priority wins). -/
def pickStep {α : Type} (input : List Char) (best : Option (α × Nat × Nat)) (r : Rule α) :
    Option (α × Nat × Nat) :=
  match r.matchLen input with
  | none => best
  | some len =>
    match best with
    | none => some (r.out, len, r.rank)
    | some (b, blen, brank) =>
      if blen < len ∨ (blen = len ∧ brank < r.rank) then some (r.out, len, r.rank)
      else some (b, blen, brank)

/-- Maximal-munch dispatch of a `logos` lexer over its pattern table: among the
rules matching at the current position, the longest match wins and at equal
length the higher priority wins. (In the two tables below, equal length and
equal priority never co-occur, so the fold order is immaterial.) Returns `none`
when no pattern matches. -/
def pickBest {α : Type} (rs : List (Rule α)) (input : List Char) : Option (α × Nat) :=
  (rs.foldl (pickStep input) none).map (fun x => (x.1, x.2.1))

/-- The sub-lexer enum for nested multi-line comments. -/
inductive MultiLineComment where
  | Open
  | Close
  | Other
  deriving DecidableEq, Repr

/-- The pattern table of the `MultiLineComment` sub-lexer, in source order:
`#[token("/*")]`, `#[token("*/")]`, `#[regex("(?s).")]`. -/
def mlcRules : List (Rule MultiLineComment) :=
  [⟨matchLit ['/', '*'], 4, .Open⟩,
   ⟨matchLit ['*', '/'], 4, .Close⟩,
   ⟨matchAnyChar, 2, .Other⟩]

/-- One `next()` of the sub-lexer: `none` at end of input, `some (.error ())` if no
pattern matches (the `Err(())` case the `comment` callback marks `unreachable!()`),
otherwise the winning variant together with the number of characters it consumed. -/
def mlcNext (input : List Char) : Option (Except Unit (MultiLineComment × Nat)) :=
  match input with
  | [] => none
  | _ :: _ =>
    match pickBest mlcRules input with
    | some (m, len) => some (.ok (m, len))
    | none => some (.error ())

/-- Outcome of the depth-counting loop of the `comment` callback. -/
inductive CommentScan where
  | closed (consumed : Nat)
  | unclosed
  | panicked
  deriving DecidableEq, Repr

/-- The depth-counting loop of `comment`: pull sub-lexer tokens one at a time,
`Open` increments the depth, `Close` decrements it, `Other` leaves it; break as
soon as `depth <= 0` (the consumed count then plays the role of the pointer
difference `end - start` in the source); end of input with the loop still running
is an unclosed comment; a sub-lexer error is the `unreachable!()` panic.
The fuel argument only forces termination: every sub-lexer token consumes at
least one character, so fuel `input.length + 1` (used by `comment` below) is
never exhausted. -/
def commentScanAux : Nat → Int → Nat → List Char → CommentScan
  | 0, _, _, _ => .unclosed
  | fuel + 1, depth, consumed, input =>
    match mlcNext input with
    | none => .unclosed
    | some (.error _) => .panicked
    | some (.ok (tok, len)) =>
      let depth' : Int :=
        match tok with
        | .Open => depth + 1
        | .Close => depth - 1
        | .Other => depth
      if depth' ≤ 0 then .closed (consumed + len)
      else commentScanAux fuel depth' (consumed + len) (input.drop len)

/-- What the `comment` callback reports back to the primary lexer. -/
inductive FilterRes where
  | skip (bump : Nat)
  | error (e : LexingError)
  | panic
  deriving DecidableEq, Repr

/-- The `comment` callback: run the depth-counting sub-scan on the remainder
(after the already-matched `/*`, so the depth starts at 1); on success skip,
bumping the cursor over the whole comment body; on exhausted input report
`UnclosedComment`. -/
def comment (start : List Char) : FilterRes :=
  match commentScanAux (start.length + 1) 1 0 start with
  | .closed consumed => .skip consumed
  | .unclosed => .error .UnclosedComment
  | .panicked => .panic

/-- The pattern table of the primary `Token` lexer, in source order. Priorities
are the `logos` defaults: 2 per byte for `#[token]` literals, 2 for the regexes
whose mandatory part is one character class, 4 for `//.*`. -/
def rules : List (Rule RuleAction) :=
  [⟨matchName, 2, .emit nameEmit⟩,
   ⟨matchLambda, 2, .emit (fun _ => .ok .Lambda)⟩,
   ⟨matchLit ['l', 'e', 't'], 6, .emit (fun _ => .ok .Let)⟩,
   ⟨matchLit ['d', 'u', 'p'], 6, .emit (fun _ => .ok .Dup)⟩,
   ⟨matchLit ['='], 2, .emit (fun _ => .ok .Equals)⟩,
   ⟨matchNumber, 2, .emit numberEmit⟩,
   ⟨matchLit ['+'], 2, .emit (fun _ => .ok .Add)⟩,
   ⟨matchLit ['-'], 2, .emit (fun _ => .ok .Sub)⟩,
   ⟨matchLit ['*'], 2, .emit (fun _ => .ok .Mul)⟩,
   ⟨matchLit ['/'], 2, .emit (fun _ => .ok .Div)⟩,
   ⟨matchLit ['%'], 2, .emit (fun _ => .ok .Mod)⟩,
   ⟨matchLit ['&'], 2, .emit (fun _ => .ok .And)⟩,
   ⟨matchLit ['|'], 2, .emit (fun _ => .ok .Or)⟩,
   ⟨matchLit ['^'], 2, .emit (fun _ => .ok .Xor)⟩,
   ⟨matchLit ['<', '<'], 4, .emit (fun _ => .ok .Shl)⟩,
   ⟨matchLit ['>', '>'], 4, .emit (fun _ => .ok .Shr)⟩,
   ⟨matchLit ['<'], 2, .emit (fun _ => .ok .Ltn)⟩,
   ⟨matchLit ['<', '='], 4, .emit (fun _ => .ok .Lte)⟩,
   ⟨matchLit ['>'], 2, .emit (fun _ => .ok .Gtn)⟩,
   ⟨matchLit ['>', '='], 4, .emit (fun _ => .ok .Gte)⟩,
   ⟨matchLit ['=', '='], 4, .emit (fun _ => .ok .EqualsEquals)⟩,
   ⟨matchLit ['!', '='], 4, .emit (fun _ => .ok .NotEquals)⟩,
   ⟨matchLit [';'], 2, .emit (fun _ => .ok .Semicolon)⟩,
   ⟨matchLit ['('], 2, .emit (fun _ => .ok .LParen)⟩,
   ⟨matchLit [')'], 2, .emit (fun _ => .ok .RParen)⟩,
   ⟨matchLit ['\n'], 2, .emit (fun _ => .ok .NewLine)⟩,
   ⟨matchLineComment, 4, .skip⟩,
   ⟨matchLit ['/', '*'], 4, .comment⟩,
   ⟨matchWhitespace, 2, .skip⟩]

/-- Outcome of one `next()` of the primary lexer. -/
inductive StepResult where
  | eof
  | panic
  | emit (r : LexResult) (len : Nat)
  | skip (len : Nat)
  deriving DecidableEq, Repr

/-- One `next()` of the primary lexer at the current cursor position: dispatch
over the pattern table; when nothing matches, yield `Err(Default::default())`
(= `InvalidCharacter`) and advance past the offending character; a matched `/*`
runs the `comment` callback on the remainder, which either skips the whole
region or turns the `/*` lexeme into an `UnclosedComment` error (the cursor then
sits just after the opener). -/
def lexStep (input : List Char) : StepResult :=
  match input with
  | [] => .eof
  | _ :: _ =>
    match pickBest rules input with
    | none => .emit (.err .InvalidCharacter) 1
    | some (.emit f, len) => .emit (f (input.take len)) len
    | some (.skip, len) => .skip len
    | some (.comment, len) =>
      match comment (input.drop len) with
      | .skip bump => .skip (len + bump)
      | .error e => .emit (.err e) len
      | .panic => .panic

/-- Iterate `lexStep` to exhaustion, collecting the stream of `Result` items the
lexer iterator yields. `none` propagates a panic. The fuel argument only forces
termination: every step consumes at least one character, so fuel `input.length`
(used by `lexAll` below) is never exhausted. -/
def lexList : Nat → List Char → Option (List LexResult)
  | _, [] => some []
  | 0, _ :: _ => none
  | fuel + 1, c :: cs =>
    match lexStep (c :: cs) with
    | .eof => some []
    | .panic => none
    | .emit r len => (lexList fuel (List.drop len (c :: cs))).map (fun l => r :: l)
    | .skip len => lexList fuel (List.drop len (c :: cs))

/-- The full stream produced by pulling the lexer until it reports end of input. -/
def lexAll (input : List Char) : Option (List LexResult) :=
  lexList input.length input

/-- The `Display` implementation: the canonical rendering of a token, a function
of the variant only. -/
def tokenDisplay : Token → String
  | .Name s => s
  | .Lambda => "λ"
  | .Let => "let"
  | .Dup => "dup"
  | .Equals => "="
  | .Number n => toString n
  | .Add => "+"
  | .Sub => "-"
  | .Mul => "*"
  | .Div => "/"
  | .Mod => "%"
  | .And => "&"
  | .Or => "|"
  | .Xor => "^"
  | .Shl => "<<"
  | .Shr => ">>"
  | .Ltn => "<"
  | .Lte => "<="
  | .Gtn => ">"
  | .Gte => ">="
  | .NotEquals => "!="
  | .EqualsEquals => "=="
  | .Semicolon => ";"
  | .LParen => "("
  | .RParen => ")"
  | .NewLine => "<NewLine>"
  | .SingleLineComment => "<SingleLineComment>"
  | .MultiLineComment => "<MultiLineComment>"
  | .Whitespace => "<Whitespace>"
  | .Error .InvalidCharacter => "<InvalidCharacter>"
  | .Error .UnclosedComment => "<UnclosedComment>"

/-- C1: for the properly nested multi-line comment region of the input text
formed of the seventeen characters of "/* a /* b */ c */", the `comment`
sub-scan succeeds when its depth counter reaches 0 and the primary cursor is
advanced to the character immediately after the matching close: regardless of
what follows the region, the scan step skips exactly the seventeen characters
of the region and emits nothing, and lexing exactly the region produces an
empty token stream with no error. -/
theorem C1_nested_comment_region :
    (∀ rest : List Char,
      lexStep
        (['/', '*', ' ', 'a', ' ', '/', '*', ' ', 'b', ' ', '*', '/', ' ', 'c', ' ', '*', '/']
          ++ rest) = .skip 17) ∧
    comment " a /* b */ c */".data = .skip 15 ∧
    lexAll "/* a /* b */ c */".data = some [] := by
  refine ⟨fun rest => ?_, by decide, by decide⟩
  rfl

/-- C2 counterexample: on the input "/* unterminated" the produced stream is
the `UnclosedComment` error followed by the token `Name "unterminated"`, so the
stream does contain a token — the claim's "exactly one `UnclosedComment` error
and zero tokens" is false for the stream the code produces. -/
theorem C2_counterexample :
    lexAll "/* unterminated".data
      = some [.err .UnclosedComment, .ok (.Name "unterminated")] ∧
    LexResult.ok (Token.Name "unterminated")
      ∈ [LexResult.err LexingError.UnclosedComment, LexResult.ok (Token.Name "unterminated")] := by
  decide

/-- C2 amended: on the input "/* unterminated" the scan step for the opener
lexeme yields the `UnclosedComment` error (the `comment` sub-scan exhausts the
input while the depth is positive), with the cursor advanced only past the
two-character opener and no token emitted for that lexeme; a consumer that
continues pulling then gets the remainder re-lexed normally, so the full stream
is the `UnclosedComment` error followed by `Name "unterminated"` — exactly one
`UnclosedComment` error, but not zero tokens. -/
theorem C2_unclosed_comment :
    lexStep "/* unterminated".data = .emit (.err .UnclosedComment) 2 ∧
    comment " unterminated".data = .error .UnclosedComment ∧
    lexAll "/* unterminated".data
      = some [.err .UnclosedComment, .ok (.Name "unterminated")] := by
  decide

/-- C3 counterexample: the input "*/" (a stray close outside any comment) lexes
to the two operator tokens `Mul`, `Div` and the produced stream contains no
`InvalidCharacter` error — the claim that the stray "*/" is reprocessed as an
`InvalidCharacter` error is false. -/
theorem C3_counterexample :
    lexAll ['*', '/'] = some [.ok .Mul, .ok .Div] ∧
    LexResult.err LexingError.InvalidCharacter
      ∉ [LexResult.ok Token.Mul, LexResult.ok Token.Div] := by
  decide

/-- C3 amended: a stray "*/" outside any open comment is indeed left in the
input stream and reprocessed by the primary scanner, but since both "*" and "/"
are standalone operator tokens it lexes as `Mul` followed by `Div` with no
error: at any position whose next characters are "*/" the scan step emits `Mul`
consuming one character, the isolated input "*/" lexes to `[Mul, Div]`, and the
stray close after a closed comment in "/* x */ */" likewise yields `[Mul, Div]`. -/
theorem C3_stray_close_is_mul_div :
    (∀ rest : List Char, lexStep ('*' :: '/' :: rest) = .emit (.ok .Mul) 1) ∧
    lexAll ['*', '/'] = some [.ok .Mul, .ok .Div] ∧
    lexAll "/* x */ */".data = some [.ok .Mul, .ok .Div] := by
  refine ⟨fun rest => ?_, by decide, by decide⟩
  rfl

/-- C5: among operators with overlapping prefixes the longest match wins at
every cursor position: whatever follows, a scan step whose next two characters
are "==", "!=", "<=", ">=", "<<" or ">>" emits the two-character operator token
and consumes both characters; in particular "<=" lexes to `[Lte]` and
"1<<2>>1" to `[Number 1, Shl, Number 2, Shr, Number 1]`. -/
theorem C5_longest_match_operators :
    (∀ rest : List Char, lexStep ('=' :: '=' :: rest) = .emit (.ok .EqualsEquals) 2) ∧
    (∀ rest : List Char, lexStep ('!' :: '=' :: rest) = .emit (.ok .NotEquals) 2) ∧
    (∀ rest : List Char, lexStep ('<' :: '=' :: rest) = .emit (.ok .Lte) 2) ∧
    (∀ rest : List Char, lexStep ('>' :: '=' :: rest) = .emit (.ok .Gte) 2) ∧
    (∀ rest : List Char, lexStep ('<' :: '<' :: rest) = .emit (.ok .Shl) 2) ∧
    (∀ rest : List Char, lexStep ('>' :: '>' :: rest) = .emit (.ok .Shr) 2) ∧
    lexAll "<=".data = some [.ok .Lte] ∧
    lexAll "1<<2>>1".data
      = some [.ok (.Number 1), .ok .Shl, .ok (.Number 2), .ok .Shr, .ok (.Number 1)] := by
  exact ⟨fun _ => rfl, fun _ => rfl, fun _ => rfl, fun _ => rfl, fun _ => rfl, fun _ => rfl,
    by decide, by decide⟩

/-- C8: a character such as '#' matches no token pattern, so whatever follows
it the scan step yields exactly one `InvalidCharacter` error for it and still
advances the cursor past it; the stream for the remainder is then produced
exactly as if scanning had started there, and the isolated input "#" lexes to
that single error. -/
theorem C8_invalid_character :
    (∀ rest : List Char, lexStep ('#' :: rest) = .emit (.err .InvalidCharacter) 1) ∧
    (∀ rest : List Char,
      lexAll ('#' :: rest) = (lexAll rest).map (fun l => .err .InvalidCharacter :: l)) ∧
    lexAll ['#'] = some [.err .InvalidCharacter] := by
  exact ⟨fun _ => rfl, fun _ => rfl, by decide⟩

/-- C10: the canonical rendering of a token depends only on its variant: the
source characters '@' and 'λ' both lex to the very same `Lambda` token (the
scan steps are equal results, whatever follows), and that token renders as "λ",
so after lexing the two spellings are indistinguishable in the token stream and
in diagnostics. -/
theorem C10_lambda_rendering :
    (∀ rest : List Char, lexStep ('@' :: rest) = .emit (.ok .Lambda) 1) ∧
    (∀ rest : List Char, lexStep ('λ' :: rest) = .emit (.ok .Lambda) 1) ∧
    lexAll ['@'] = some [.ok .Lambda] ∧
    lexAll ['λ'] = some [.ok .Lambda] ∧
    tokenDisplay .Lambda = "λ" := by
  exact ⟨fun _ => rfl, fun _ => rfl, by decide, by decide, by decide⟩

theorem takeWhileLen_le_length (p : Char → Bool) (l : List Char) :
    takeWhileLen p l ≤ l.length := by
  induction l with
  | nil => simp [takeWhileLen]
  | cons c cs ih =>
    simp only [takeWhileLen, List.length_cons]
    split
    · omega
    · omega

theorem class_ne {p : Char → Bool} {c d : Char} (h : p c = true) (hd : p d = false) :
    c ≠ d := by
  intro he
  rw [he, hd] at h
  cases h

theorem matchLit_head_ne {d c : Char} {ds cs : List Char} (h : c ≠ d) :
    matchLit (d :: ds) (c :: cs) = none := by
  have hb : (d == c) = false := by
    rw [beq_eq_false_iff_ne]
    exact fun he => h he.symm
  simp [matchLit, litMatches, hb]

theorem matchLit_not_pre {pat input : List Char} (h : litMatches pat input = false) :
    matchLit pat input = none := by
  simp [matchLit, h]

theorem matchName_none {c : Char} {cs : List Char} (h : identStart c = false) :
    matchName (c :: cs) = none := by
  simp [matchName, h]

theorem matchNumber_none {c : Char} {cs : List Char} (h : isDigit c = false) :
    matchNumber (c :: cs) = none := by
  simp [matchNumber, h]

theorem matchWhitespace_none {c : Char} {cs : List Char} (h : isWs c = false) :
    matchWhitespace (c :: cs) = none := by
  simp [matchWhitespace, h]

theorem matchLambda_none {c : Char} {cs : List Char} (h1 : c ≠ '@') (h2 : c ≠ 'λ') :
    matchLambda (c :: cs) = none := by
  simp [matchLambda, h1, h2]

theorem matchLineComment_none {c : Char} (cs : List Char) (h : c ≠ '/') :
    matchLineComment (c :: cs) = none := by
  unfold matchLineComment
  split
  · next heq => injection heq with h1 _; exact absurd h1 h
  · rfl

theorem identStart_isDigit_false {c : Char} (h : identStart c = true) : isDigit c = false := by
  simp only [identStart, decide_eq_true_eq] at h
  simp only [isDigit, decide_eq_false_iff_not, not_and]
  rcases h with rfl | ⟨h1, h2⟩ | ⟨h1, h2⟩
  · intro h3; decide
  · intro h3 h4; exact absurd (le_trans h1 h4) (by decide)
  · intro h3 h4; exact absurd (le_trans h1 h4) (by decide)

theorem isDigit_identStart_false {c : Char} (h : isDigit c = true) : identStart c = false := by
  simp only [isDigit, decide_eq_true_eq] at h
  simp only [identStart, decide_eq_false_iff_not]
  rintro (rfl | ⟨h1, h2⟩ | ⟨h1, h2⟩)
  · exact absurd h.2 (by decide)
  · exact absurd (le_trans h1 h.2) (by decide)
  · exact absurd (le_trans h1 h.2) (by decide)

theorem identStart_isWs_false {c : Char} (h : identStart c = true) : isWs c = false := by
  cases hw : isWs c
  · rfl
  · exfalso
    simp only [isWs, Bool.or_eq_true, beq_iff_eq] at hw
    rcases hw with ((rfl | rfl) | rfl) | rfl <;> exact absurd h (by decide)

theorem isDigit_isWs_false {c : Char} (h : isDigit c = true) : isWs c = false := by
  cases hw : isWs c
  · rfl
  · exfalso
    simp only [isWs, Bool.or_eq_true, beq_iff_eq] at hw
    rcases hw with ((rfl | rfl) | rfl) | rfl <;> exact absurd h (by decide)

theorem pickStep_matcher_none {α : Type} {input : List Char} {acc : Option (α × Nat × Nat)}
    {r : Rule α} (h : r.matchLen input = none) : pickStep input acc r = acc := by
  simp [pickStep, h]

/-- C9: the comment sub-scanner's pattern set is exhaustive: on every nonempty
remaining input some pattern (at worst the any-single-character pattern, which
also matches newlines) applies, so the sub-lexer never yields an error and the
branch of `comment` that would panic is never taken — the depth-counting scan
never reaches the `panicked` outcome, for any fuel, depth, consumed count and
input. -/
theorem C9_sub_scanner_never_errors :
    (∀ (c : Char) (cs : List Char), mlcNext (c :: cs) ≠ some (.error ())) ∧
    (∀ (fuel : Nat) (depth : Int) (consumed : Nat) (input : List Char),
      commentScanAux fuel depth consumed input ≠ .panicked) := by
  have key : ∀ (c : Char) (cs : List Char), mlcNext (c :: cs) ≠ some (.error ()) := by
    intro c cs h
    cases h1 : litMatches ['/', '*'] (c :: cs) <;>
      cases h2 : litMatches ['*', '/'] (c :: cs) <;>
        simp [mlcNext, pickBest, mlcRules, pickStep, matchLit, matchAnyChar, h1, h2] at h
  refine ⟨key, ?_⟩
  intro fuel
  induction fuel with
  | zero =>
    intro depth consumed input h
    simp [commentScanAux] at h
  | succ n ih =>
    intro depth consumed input h
    rw [commentScanAux] at h
    cases hm : mlcNext input with
    | none => rw [hm] at h; cases h
    | some r =>
      cases r with
      | error e =>
        cases input with
        | nil => rw [show mlcNext [] = none from rfl] at hm; cases hm
        | cons c cs => cases e; exact key c cs hm
      | ok p =>
        obtain ⟨tok, len⟩ := p
        rw [hm] at h
        simp only at h
        split at h
        · cases h
        · exact ih _ _ _ h

/-- C6: at any cursor position starting a run of ASCII digits, the scan step
consumes exactly the maximal digit run; when the run's numeric value is
representable the step emits a `Number` token carrying the parsed value, and
when it exceeds the representable unsigned range the step yields an error
result for that lexeme instead of truncating or wrapping — in particular a
22-digit literal lexes to a single error and the maximal 64-bit value to a
`Number` token. -/
theorem C6_number_parse_or_overflow :
    (∀ (c : Char) (cs : List Char), isDigit c = true →
      lexStep (c :: cs) =
        if digitsVal (List.take (takeWhileLen isDigit cs + 1) (c :: cs)) ≤ numberMax then
          .emit (.ok (.Number (digitsVal (List.take (takeWhileLen isDigit cs + 1) (c :: cs)))))
            (takeWhileLen isDigit cs + 1)
        else
          .emit (.err .InvalidCharacter) (takeWhileLen isDigit cs + 1)) ∧
    lexAll "9999999999999999999999".data = some [.err .InvalidCharacter] ∧
    lexAll "18446744073709551615".data = some [.ok (.Number 18446744073709551615)] := by
  refine ⟨?_, by decide, by decide⟩
  intro c cs h
  have hId : identStart c = false := isDigit_identStart_false h
  have hWs : isWs c = false := isDigit_isWs_false h
  have hne : ∀ d : Char, isDigit d = false → c ≠ d := fun d hd => class_ne h hd
  have e1 : matchName (c :: cs) = none := matchName_none hId
  have e2 : matchLambda (c :: cs) = none :=
    matchLambda_none (hne '@' (by decide)) (hne 'λ' (by decide))
  have e3 : matchLit ['l', 'e', 't'] (c :: cs) = none := matchLit_head_ne (hne 'l' (by decide))
  have e4 : matchLit ['d', 'u', 'p'] (c :: cs) = none := matchLit_head_ne (hne 'd' (by decide))
  have e5 : matchLit ['='] (c :: cs) = none := matchLit_head_ne (hne '=' (by decide))
  have e6 : matchNumber (c :: cs) = some (takeWhileLen isDigit cs + 1) := by
    simp [matchNumber, h]
  have e7 : matchLit ['+'] (c :: cs) = none := matchLit_head_ne (hne '+' (by decide))
  have e8 : matchLit ['-'] (c :: cs) = none := matchLit_head_ne (hne '-' (by decide))
  have e9 : matchLit ['*'] (c :: cs) = none := matchLit_head_ne (hne '*' (by decide))
  have e10 : matchLit ['/'] (c :: cs) = none := matchLit_head_ne (hne '/' (by decide))
  have e11 : matchLit ['%'] (c :: cs) = none := matchLit_head_ne (hne '%' (by decide))
  have e12 : matchLit ['&'] (c :: cs) = none := matchLit_head_ne (hne '&' (by decide))
  have e13 : matchLit ['|'] (c :: cs) = none := matchLit_head_ne (hne '|' (by decide))
  have e14 : matchLit ['^'] (c :: cs) = none := matchLit_head_ne (hne '^' (by decide))
  have e15 : matchLit ['<', '<'] (c :: cs) = none := matchLit_head_ne (hne '<' (by decide))
  have e16 : matchLit ['>', '>'] (c :: cs) = none := matchLit_head_ne (hne '>' (by decide))
  have e17 : matchLit ['<'] (c :: cs) = none := matchLit_head_ne (hne '<' (by decide))
  have e18 : matchLit ['<', '='] (c :: cs) = none := matchLit_head_ne (hne '<' (by decide))
  have e19 : matchLit ['>'] (c :: cs) = none := matchLit_head_ne (hne '>' (by decide))
  have e20 : matchLit ['>', '='] (c :: cs) = none := matchLit_head_ne (hne '>' (by decide))
  have e21 : matchLit ['=', '='] (c :: cs) = none := matchLit_head_ne (hne '=' (by decide))
  have e22 : matchLit ['!', '='] (c :: cs) = none := matchLit_head_ne (hne '!' (by decide))
  have e23 : matchLit [';'] (c :: cs) = none := matchLit_head_ne (hne ';' (by decide))
  have e24 : matchLit ['('] (c :: cs) = none := matchLit_head_ne (hne '(' (by decide))
  have e25 : matchLit [')'] (c :: cs) = none := matchLit_head_ne (hne ')' (by decide))
  have e26 : matchLit ['\n'] (c :: cs) = none := matchLit_head_ne (hne '\n' (by decide))
  have e27 : matchLineComment (c :: cs) = none := matchLineComment_none cs (hne '/' (by decide))
  have e28 : matchLit ['/', '*'] (c :: cs) = none := matchLit_head_ne (hne '/' (by decide))
  have e29 : matchWhitespace (c :: cs) = none := matchWhitespace_none hWs
  have hpb : pickBest rules (c :: cs)
      = some (.emit numberEmit, takeWhileLen isDigit cs + 1) := by
    simp only [pickBest, rules, List.foldl, pickStep,
      e1, e2, e3, e4, e5, e6, e7, e8, e9, e10, e11, e12, e13, e14, e15, e16, e17, e18,
      e19, e20, e21, e22, e23, e24, e25, e26, e27, e28, e29, Option.map]
  have hstep : lexStep (c :: cs)
      = .emit (numberEmit (List.take (takeWhileLen isDigit cs + 1) (c :: cs)))
          (takeWhileLen isDigit cs + 1) := by
    rw [lexStep, hpb]
  rw [hstep]
  simp only [numberEmit, parseNumber]
  by_cases hv : digitsVal (List.take (takeWhileLen isDigit cs + 1) (c :: cs)) ≤ numberMax
  · simp only [if_pos hv]
  · simp only [if_neg hv]

theorem take_eq_litMatches {pat : List Char} :
    ∀ {input : List Char} {n : Nat}, List.take n input = pat → litMatches pat input = true := by
  induction pat with
  | nil => intro input n _; rfl
  | cons p ps ih =>
    intro input n h
    cases n with
    | zero => simp at h
    | succ m =>
      cases input with
      | nil => simp at h
      | cons c cs =>
        simp only [List.take] at h
        injection h with h1 h2
        subst h1
        simp [litMatches, ih h2]

theorem litMatches3 {a b d c : Char} {cs : List Char}
    (h : litMatches [a, b, d] (c :: cs) = true) :
    c = a ∧ ∃ cs', cs = b :: d :: cs' := by
  cases cs with
  | nil => simp [litMatches] at h
  | cons c2 cs2 =>
    cases cs2 with
    | nil => simp [litMatches] at h
    | cons c3 cs3 =>
      simp only [litMatches, Bool.and_eq_true, beq_iff_eq] at h
      obtain ⟨h1, h2, h3, -⟩ := h
      exact ⟨h1.symm, cs3, by rw [← h2, ← h3]⟩

/-- C4: at any cursor position starting a character of the class `[_a-zA-Z]`,
the scan step consumes exactly the maximal run of identifier characters
`[_a-zA-Z][_a-zA-Z0-9]*`; if the matched text is exactly "let" or "dup" the
keyword token wins over the generic identifier at the same match length,
otherwise a `Name` token carrying the matched text is emitted — in particular
"dup" lexes to the single token `Dup` and not to `Name "dup"`. -/
theorem C4_keyword_precedence :
    (∀ (c : Char) (cs : List Char), identStart c = true →
      lexStep (c :: cs) =
        .emit (.ok
          (if List.take (takeWhileLen identCont cs + 1) (c :: cs) = ['l', 'e', 't'] then .Let
           else if List.take (takeWhileLen identCont cs + 1) (c :: cs) = ['d', 'u', 'p'] then .Dup
           else .Name (String.mk (List.take (takeWhileLen identCont cs + 1) (c :: cs)))))
          (takeWhileLen identCont cs + 1)) ∧
    lexAll ['d', 'u', 'p'] = some [.ok .Dup] ∧
    lexAll ['d', 'u', 'p'] ≠ some [.ok (.Name "dup")] := by
  refine ⟨?_, by decide, by decide⟩
  intro c cs h
  have hDg : isDigit c = false := identStart_isDigit_false h
  have hWs : isWs c = false := identStart_isWs_false h
  have hne : ∀ d : Char, identStart d = false → c ≠ d := fun d hd => class_ne h hd
  have e2 : matchLambda (c :: cs) = none :=
    matchLambda_none (hne '@' (by decide)) (hne 'λ' (by decide))
  have e5 : matchLit ['='] (c :: cs) = none := matchLit_head_ne (hne '=' (by decide))
  have e6 : matchNumber (c :: cs) = none := matchNumber_none hDg
  have e7 : matchLit ['+'] (c :: cs) = none := matchLit_head_ne (hne '+' (by decide))
  have e8 : matchLit ['-'] (c :: cs) = none := matchLit_head_ne (hne '-' (by decide))
  have e9 : matchLit ['*'] (c :: cs) = none := matchLit_head_ne (hne '*' (by decide))
  have e10 : matchLit ['/'] (c :: cs) = none := matchLit_head_ne (hne '/' (by decide))
  have e11 : matchLit ['%'] (c :: cs) = none := matchLit_head_ne (hne '%' (by decide))
  have e12 : matchLit ['&'] (c :: cs) = none := matchLit_head_ne (hne '&' (by decide))
  have e13 : matchLit ['|'] (c :: cs) = none := matchLit_head_ne (hne '|' (by decide))
  have e14 : matchLit ['^'] (c :: cs) = none := matchLit_head_ne (hne '^' (by decide))
  have e15 : matchLit ['<', '<'] (c :: cs) = none := matchLit_head_ne (hne '<' (by decide))
  have e16 : matchLit ['>', '>'] (c :: cs) = none := matchLit_head_ne (hne '>' (by decide))
  have e17 : matchLit ['<'] (c :: cs) = none := matchLit_head_ne (hne '<' (by decide))
  have e18 : matchLit ['<', '='] (c :: cs) = none := matchLit_head_ne (hne '<' (by decide))
  have e19 : matchLit ['>'] (c :: cs) = none := matchLit_head_ne (hne '>' (by decide))
  have e20 : matchLit ['>', '='] (c :: cs) = none := matchLit_head_ne (hne '>' (by decide))
  have e21 : matchLit ['=', '='] (c :: cs) = none := matchLit_head_ne (hne '=' (by decide))
  have e22 : matchLit ['!', '='] (c :: cs) = none := matchLit_head_ne (hne '!' (by decide))
  have e23 : matchLit [';'] (c :: cs) = none := matchLit_head_ne (hne ';' (by decide))
  have e24 : matchLit ['('] (c :: cs) = none := matchLit_head_ne (hne '(' (by decide))
  have e25 : matchLit [')'] (c :: cs) = none := matchLit_head_ne (hne ')' (by decide))
  have e26 : matchLit ['\n'] (c :: cs) = none := matchLit_head_ne (hne '\n' (by decide))
  have e27 : matchLineComment (c :: cs) = none := matchLineComment_none cs (hne '/' (by decide))
  have e28 : matchLit ['/', '*'] (c :: cs) = none := matchLit_head_ne (hne '/' (by decide))
  have e29 : matchWhitespace (c :: cs) = none := matchWhitespace_none hWs
  cases hLet : litMatches ['l', 'e', 't'] (c :: cs) with
  | true =>
    obtain ⟨rfl, cs', rfl⟩ := litMatches3 hLet
    have e1 : matchName ('l' :: 'e' :: 't' :: cs')
        = some (takeWhileLen identCont ('e' :: 't' :: cs') + 1) := rfl
    have e3 : matchLit ['l', 'e', 't'] ('l' :: 'e' :: 't' :: cs') = some 3 := rfl
    have e4 : matchLit ['d', 'u', 'p'] ('l' :: 'e' :: 't' :: cs') = none :=
      matchLit_head_ne (by decide)
    have hm : takeWhileLen identCont ('e' :: 't' :: cs') = takeWhileLen identCont cs' + 2 := rfl
    cases hk : takeWhileLen identCont cs' with
    | zero =>
      have hb : takeWhileLen identCont ('e' :: 't' :: cs') = 2 := by rw [hm, hk]
      have hpb : pickBest rules ('l' :: 'e' :: 't' :: cs')
          = some (.emit (fun _ => LexResult.ok Token.Let), 3) := by
        simp +arith +decide only [pickBest, rules, List.foldl, pickStep,
          e1, e2, e3, e4, e5, e6, e7, e8, e9, e10, e11, e12, e13, e14, e15, e16, e17, e18,
          e19, e20, e21, e22, e23, e24, e25, e26, e27, e28, e29, hb, Option.map,
          if_true, if_false]
      rw [lexStep, hpb, hb]
      simp +arith +decide [List.take]
    | succ k =>
      have hb : takeWhileLen identCont ('e' :: 't' :: cs') = k + 3 := by rw [hm, hk]
      have hlen := takeWhileLen_le_length identCont cs'
      rw [hk] at hlen
      have hrun1 : List.take (takeWhileLen identCont ('e' :: 't' :: cs') + 1)
          ('l' :: 'e' :: 't' :: cs') ≠ ['l', 'e', 't'] := by
        intro he
        have h3 := congrArg List.length he
        simp only [List.length_take, List.length_cons, List.length_nil] at h3
        rw [hb] at h3
        omega
      have hrun2 : List.take (takeWhileLen identCont ('e' :: 't' :: cs') + 1)
          ('l' :: 'e' :: 't' :: cs') ≠ ['d', 'u', 'p'] := by
        intro he
        have h3 := congrArg List.length he
        simp only [List.length_take, List.length_cons, List.length_nil] at h3
        rw [hb] at h3
        omega
      rw [if_neg hrun1, if_neg hrun2]
      have hpb : pickBest rules ('l' :: 'e' :: 't' :: cs')
          = some (.emit nameEmit, takeWhileLen identCont ('e' :: 't' :: cs') + 1) := by
        simp +arith +decide only [pickBest, rules, List.foldl, pickStep,
          e1, e2, e3, e4, e5, e6, e7, e8, e9, e10, e11, e12, e13, e14, e15, e16, e17, e18,
          e19, e20, e21, e22, e23, e24, e25, e26, e27, e28, e29, hb, Option.map,
          if_true, if_false]
      rw [lexStep, hpb]
      simp [nameEmit]
  | false =>
    have e3 : matchLit ['l', 'e', 't'] (c :: cs) = none := matchLit_not_pre hLet
    have hrun1 : List.take (takeWhileLen identCont cs + 1) (c :: cs) ≠ ['l', 'e', 't'] := by
      intro he
      have := take_eq_litMatches he
      rw [hLet] at this
      cases this
    rw [if_neg hrun1]
    cases hDup : litMatches ['d', 'u', 'p'] (c :: cs) with
    | true =>
      obtain ⟨rfl, cs', rfl⟩ := litMatches3 hDup
      have e1 : matchName ('d' :: 'u' :: 'p' :: cs')
          = some (takeWhileLen identCont ('u' :: 'p' :: cs') + 1) := rfl
      have e4 : matchLit ['d', 'u', 'p'] ('d' :: 'u' :: 'p' :: cs') = some 3 := rfl
      have hm : takeWhileLen identCont ('u' :: 'p' :: cs') = takeWhileLen identCont cs' + 2 := rfl
      cases hk : takeWhileLen identCont cs' with
      | zero =>
        have hb : takeWhileLen identCont ('u' :: 'p' :: cs') = 2 := by rw [hm, hk]
        have hpb : pickBest rules ('d' :: 'u' :: 'p' :: cs')
            = some (.emit (fun _ => LexResult.ok Token.Dup), 3) := by
          simp +arith +decide only [pickBest, rules, List.foldl, pickStep,
            e1, e2, e3, e4, e5, e6, e7, e8, e9, e10, e11, e12, e13, e14, e15, e16, e17, e18,
            e19, e20, e21, e22, e23, e24, e25, e26, e27, e28, e29, hb, Option.map,
            if_true, if_false]
        rw [lexStep, hpb, hb]
        simp +arith +decide [List.take]
      | succ k =>
        have hb : takeWhileLen identCont ('u' :: 'p' :: cs') = k + 3 := by rw [hm, hk]
        have hrun2 : List.take (takeWhileLen identCont ('u' :: 'p' :: cs') + 1)
            ('d' :: 'u' :: 'p' :: cs') ≠ ['d', 'u', 'p'] := by
          intro he
          have h3 := congrArg List.length he
          simp only [List.length_take, List.length_cons, List.length_nil] at h3
          rw [hb] at h3
          have hlen := takeWhileLen_le_length identCont cs'
          rw [hk] at hlen
          omega
        rw [if_neg hrun2]
        have hpb : pickBest rules ('d' :: 'u' :: 'p' :: cs')
            = some (.emit nameEmit, takeWhileLen identCont ('u' :: 'p' :: cs') + 1) := by
          simp +arith +decide only [pickBest, rules, List.foldl, pickStep,
            e1, e2, e3, e4, e5, e6, e7, e8, e9, e10, e11, e12, e13, e14, e15, e16, e17, e18,
            e19, e20, e21, e22, e23, e24, e25, e26, e27, e28, e29, hb, Option.map,
            if_true, if_false]
        rw [lexStep, hpb]
        simp [nameEmit]
    | false =>
      have e4 : matchLit ['d', 'u', 'p'] (c :: cs) = none := matchLit_not_pre hDup
      have hrun2 : List.take (takeWhileLen identCont cs + 1) (c :: cs) ≠ ['d', 'u', 'p'] := by
        intro he
        have := take_eq_litMatches he
        rw [hDup] at this
        cases this
      rw [if_neg hrun2]
      have e1 : matchName (c :: cs) = some (takeWhileLen identCont cs + 1) := by
        simp [matchName, h]
      have hpb : pickBest rules (c :: cs)
          = some (.emit nameEmit, takeWhileLen identCont cs + 1) := by
        simp only [pickBest, rules, List.foldl, pickStep,
          e1, e2, e3, e4, e5, e6, e7, e8, e9, e10, e11, e12, e13, e14, e15, e16, e17, e18,
          e19, e20, e21, e22, e23, e24, e25, e26, e27, e28, e29, Option.map]
      rw [lexStep, hpb]
      simp [nameEmit]

/-- C4 witness: the theorem instantiated at the concrete inputs "dup" (keyword
wins) and "xy" (generic identifier). -/
theorem C4_keyword_precedence_witness :
    lexStep ['d', 'u', 'p'] = .emit (.ok .Dup) 3 ∧
    lexStep ['x', 'y'] = .emit (.ok (.Name "xy")) 2 :=
  ⟨(C4_keyword_precedence.1 'd' ['u', 'p'] (by decide)).trans (by decide),
   (C4_keyword_precedence.1 'x' ['y'] (by decide)).trans (by decide)⟩

/-- C6 witness: the theorem instantiated at the in-range input "42" and at a
twenty-digit overflowing input. -/
theorem C6_number_parse_or_overflow_witness :
    lexStep ['4', '2'] = .emit (.ok (.Number 42)) 2 ∧
    lexStep ['9', '9', '9', '9', '9', '9', '9', '9', '9', '9',
             '9', '9', '9', '9', '9', '9', '9', '9', '9', '9']
      = .emit (.err .InvalidCharacter) 20 :=
  ⟨(C6_number_parse_or_overflow.1 '4' ['2'] (by decide)).trans (by decide),
   (C6_number_parse_or_overflow.1 '9'
      ['9', '9', '9', '9', '9', '9', '9', '9', '9',
       '9', '9', '9', '9', '9', '9', '9', '9', '9', '9'] (by decide)).trans (by decide)⟩

theorem pickStep_cases {α : Type} (input : List Char) (best : Option (α × Nat × Nat))
    (r : Rule α) :
    pickStep input best r = best ∨ ∃ len, pickStep input best r = some (r.out, len, r.rank) := by
  cases hm : r.matchLen input with
  | none => exact .inl (by simp [pickStep, hm])
  | some len =>
    cases best with
    | none => exact .inr ⟨len, by simp [pickStep, hm]⟩
    | some b =>
      obtain ⟨a, blen, brank⟩ := b
      by_cases hc : blen < len ∨ (blen = len ∧ brank < r.rank)
      · exact .inr ⟨len, by simp [pickStep, hm, if_pos hc]⟩
      · exact .inl (by simp [pickStep, hm, if_neg hc])

theorem foldl_pickStep_mem {α : Type} (input : List Char) :
    ∀ (rs : List (Rule α)) (acc : Option (α × Nat × Nat)) (x : α × Nat × Nat),
      rs.foldl (pickStep input) acc = some x →
      acc = some x ∨ ∃ r ∈ rs, x.1 = r.out := by
  intro rs
  induction rs with
  | nil => intro acc x h; exact .inl h
  | cons r rs ih =>
    intro acc x h
    rw [List.foldl_cons] at h
    rcases ih (pickStep input acc r) x h with h' | ⟨r', hr', he⟩
    · rcases pickStep_cases input acc r with hc | ⟨len, hc⟩
      · rw [hc] at h'
        exact .inl h'
      · rw [hc] at h'
        injection h' with h''
        exact .inr ⟨r, List.mem_cons_self r rs, by rw [← h'']⟩
    · exact .inr ⟨r', List.mem_cons_of_mem r hr', he⟩

theorem pickBest_out_mem {α : Type} (rs : List (Rule α)) (input : List Char) (a : α)
    (len : Nat) (h : pickBest rs input = some (a, len)) : ∃ r ∈ rs, a = r.out := by
  unfold pickBest at h
  cases hf : rs.foldl (pickStep input) none with
  | none => rw [hf] at h; cases h
  | some x =>
    rw [hf] at h
    have h' : (x.1, x.2.1) = (a, len) := Option.some.inj h
    rcases foldl_pickStep_mem input rs none x hf with h'' | ⟨r, hr, he⟩
    · cases h''
    · refine ⟨r, hr, ?_⟩
      have hx : x.1 = a := congrArg Prod.fst h'
      rw [← hx, he]

theorem rules_emit_no_trivia (r : Rule RuleAction) (hr : r ∈ rules)
    (f : List Char → LexResult) (hf : r.out = .emit f) (s : List Char) :
    f s ≠ .ok .SingleLineComment ∧ f s ≠ .ok .MultiLineComment ∧ f s ≠ .ok .Whitespace := by
  fin_cases hr <;> cases hf <;>
    cases hp : parseNumber s <;> simp [nameEmit, numberEmit, hp]

theorem lexStep_emit_no_trivia (input : List Char) (r : LexResult) (len : Nat)
    (h : lexStep input = .emit r len) :
    r ≠ .ok .SingleLineComment ∧ r ≠ .ok .MultiLineComment ∧ r ≠ .ok .Whitespace := by
  cases input with
  | nil => simp [lexStep] at h
  | cons c cs =>
    rw [lexStep] at h
    split at h
    · injection h with h1 h2
      subst h1
      simp
    · rename_i f len' heq
      injection h with h1 h2
      subst h1
      obtain ⟨rr, hrr, he⟩ := pickBest_out_mem rules (c :: cs) (.emit f) len' heq
      exact rules_emit_no_trivia rr hrr f he.symm (List.take len' (c :: cs))
    · cases h
    · split at h
      · cases h
      · injection h with h1 h2
        subst h1
        simp
      · cases h

theorem lexList_no_trivia :
    ∀ (fuel : Nat) (input : List Char) (l : List LexResult),
      lexList fuel input = some l →
      ∀ x ∈ l, x ≠ .ok .SingleLineComment ∧ x ≠ .ok .MultiLineComment ∧ x ≠ .ok .Whitespace := by
  intro fuel
  induction fuel with
  | zero =>
    intro input l h x hx
    cases input with
    | nil =>
      have h1 : ([] : List LexResult) = l := Option.some.inj h
      subst h1
      cases hx
    | cons c cs => cases h
  | succ n ih =>
    intro input l h x hx
    cases input with
    | nil =>
      have h1 : ([] : List LexResult) = l := Option.some.inj h
      subst h1
      cases hx
    | cons c cs =>
      rw [lexList] at h
      split at h
      · have h1 : ([] : List LexResult) = l := Option.some.inj h
        subst h1
        cases hx
      · cases h
      · rename_i r' len' heq
        cases hl : lexList n (List.drop len' (c :: cs)) with
        | none => rw [hl] at h; cases h
        | some l' =>
          rw [hl] at h
          have h1 : r' :: l' = l := Option.some.inj h
          subst h1
          rcases List.mem_cons.mp hx with rfl | hx'
          · exact lexStep_emit_no_trivia _ _ _ heq
          · exact ih _ _ hl x hx'
      · rename_i len' heq
        exact ih _ _ h x hx

/-- C7: in the stream produced for any input, the `SingleLineComment`,
`MultiLineComment` and `Whitespace` variants never appear (both comment kinds
and horizontal whitespace are discarded, not emitted), while a newline at the
cursor always produces a real `NewLine` token consuming exactly that
character. -/
theorem C7_newline_token_trivia_discarded :
    (∀ (input : List Char) (l : List LexResult), lexAll input = some l →
      ∀ x ∈ l, x ≠ .ok .SingleLineComment ∧ x ≠ .ok .MultiLineComment ∧ x ≠ .ok .Whitespace) ∧
    (∀ rest : List Char, lexStep ('\n' :: rest) = .emit (.ok .NewLine) 1) :=
  ⟨fun input l h => lexList_no_trivia input.length input l h, fun _ => rfl⟩

/-- C7 witness: the theorem applied to the concrete input consisting of one
newline, whose stream is the single token `NewLine`. -/
theorem C7_newline_token_trivia_discarded_witness :
    LexResult.ok Token.NewLine ≠ .ok .SingleLineComment ∧
    LexResult.ok Token.NewLine ≠ .ok .MultiLineComment ∧
    LexResult.ok Token.NewLine ≠ .ok .Whitespace :=
  C7_newline_token_trivia_discarded.1 ['\n'] [.ok .NewLine] (by decide) (.ok .NewLine)
    (by simp)
